import Mathlib

/-!
Verification development for the `init` crate: a shallow embedding of its
in-place initialization protocol (the `SliceWriter` over a region of cells,
the slice bulk initializers, the layout providers' zero-fill decision, the
boxed `emplace_with` allocation discipline and the `Vec` emplace extension),
together with theorems settling the specification's claims about them.

The element region is modelled as a list of cells; each cell records its
current content together with how many times it was constructed (written)
and how many times its destructor ran.  A construction recipe (`Ctor`) is
modelled by the `Except` outcome of running it against the cell it is handed:
`Except.ok v` means the recipe initialized the slot with `v`, `Except.error e`
means it failed and left the slot uninitialized.
-/

namespace InitCrate

deriving instance DecidableEq for Except

/-- One element slot of a memory region.  `val` is its current content
(`none` while uninitialized or after its destructor ran), `writes` counts
how many times the slot was constructed, `drops` counts how many times the
slot's destructor was invoked. -/
structure Cell (α : Type) where
  val : Option α
  writes : Nat
  drops : Nat
deriving DecidableEq, Repr

/-- A freshly allocated, uninitialized slot. -/
def Cell.uninit {α : Type} : Cell α := ⟨none, 0, 0⟩

/-- Constructing a value in the slot (the effect of `Uninit::write` /
a successful `Ctor::try_init` on it). -/
def Cell.write {α : Type} (v : α) (c : Cell α) : Cell α :=
  { c with val := some v, writes := c.writes + 1 }

/-- Running the slot's destructor (the effect of `drop_in_place` on it). -/
def Cell.dropOnce {α : Type} (c : Cell α) : Cell α :=
  { c with val := none, drops := c.drops + 1 }

/-- Replace the `i`-th element of a list by `f` of it (out-of-range is the
identity); used to model a write through the iterator's current pointer. -/
def modifyCell {α : Type} : List (Cell α) → Nat → (Cell α → Cell α) → List (Cell α)
  | [], _, _ => []
  | c :: cs, 0, f => f c :: cs
  | c :: cs, n + 1, f => c :: modifyCell cs n f

/-- The `i`-th slot of a region (reading past the end of the region yields
an uninitialized slot; all statements bound `i` by the region length). -/
def cellAt {α : Type} : List (Cell α) → Nat → Cell α
  | [], _ => Cell.uninit
  | c :: _, 0 => c
  | _ :: cs, n + 1 => cellAt cs n

/-- `drop_in_place` on the first `n` elements of the region
(`impl Drop for SliceWriter`, src/slice_writer.rs lines 16-23). -/
def dropFirstCells {α : Type} : List (Cell α) → Nat → List (Cell α)
  | cells, 0 => cells
  | [], _ + 1 => []
  | c :: cs, n + 1 => Cell.dropOnce c :: dropFirstCells cs n

/-- A region of `n` freshly allocated, uninitialized slots. -/
def freshCells (α : Type) (n : Nat) : List (Cell α) :=
  List.replicate n Cell.uninit

/-- `SliceWriter` (src/slice_writer.rs lines 10-14): the region (`ptr`),
the element iterator modelled by its current position and its end
position into the region, and `init`, the count of the initialized
leading elements. -/
structure SliceWriter (α : Type) where
  cells : List (Cell α)
  iterPos : Nat
  iterEnd : Nat
  init : Nat
deriving DecidableEq, Repr

namespace SliceWriter

/-- `SliceWriter::new` (src/slice_writer.rs lines 27-34): iterator over the
whole region, zero elements initialized. -/
def new {α : Type} (cells : List (Cell α)) : SliceWriter α :=
  { cells := cells, iterPos := 0, iterEnd := cells.length, init := 0 }

/-- `SliceWriter::remaining_len` (src/slice_writer.rs lines 37-39):
the iterator's remaining length. -/
def remainingLen {α : Type} (w : SliceWriter α) : Nat :=
  w.iterEnd - w.iterPos

/-- `SliceWriter::is_initialized` (src/slice_writer.rs lines 79-81):
`self.init == self.ptr.len()`. -/
def isInitialized {α : Type} (w : SliceWriter α) : Bool :=
  w.init == w.cells.length

/-- `SliceWriter::try_init_unchecked` (src/slice_writer.rs lines 65-76),
with the recipe's effect on the slot it is handed passed as `r`:
take the iterator's next slot, run the recipe on it (a success writes the
slot and, via `Init::take_ownership`, relinquishes the per-element handle so
the element is not destructed here), bump `init` on success, and on failure
empty the iterator (`reset_if`, which abandons the writer) leaving `init`
unchanged.  (`reset_if` itself is not in the provided sources; following the
spec's abandonment semantics and `UninitSliceIter::reset`, it empties the
iterator exactly when its argument is true.) -/
def tryInitUnchecked {α ε : Type} (w : SliceWriter α) (r : Except ε α) :
    SliceWriter α × Except ε Unit :=
  match r with
  | Except.ok v =>
      ({ w with
          cells := modifyCell w.cells w.iterPos (Cell.write v)
          iterPos := w.iterPos + 1
          init := w.init + 1 },
        Except.ok ())
  | Except.error e =>
      ({ w with iterPos := w.iterPos + 1, iterEnd := w.iterPos + 1 },
        Except.error e)

/-- The result type of `SliceWriter::try_init`
(`Result<Result<(), T::Error>, Args>`): `noSlots args` is the outer
`Err(args)` returned when the iterator is exhausted, `ok` is `Ok(Ok(()))`,
`fail e` is `Ok(Err(e))`. -/
inductive TryInitResult (ε Args : Type) where
  | noSlots (args : Args)
  | ok
  | fail (e : ε)
deriving DecidableEq, Repr

/-- `SliceWriter::try_init` (src/slice_writer.rs lines 45-58): if the
iterator is exhausted, a no-op returning the arguments back; otherwise it
behaves as `try_init_unchecked` on the recipe applied to the arguments. -/
def tryInit {α ε Args : Type} (w : SliceWriter α) (recipe : Args → Except ε α)
    (args : Args) : SliceWriter α × TryInitResult ε Args :=
  if w.iterPos < w.iterEnd then
    match w.tryInitUnchecked (recipe args) with
    | (w', Except.ok _) => (w', TryInitResult.ok)
    | (w', Except.error e) => (w', TryInitResult.fail e)
  else
    (w, TryInitResult.noSlots args)

/-- `impl Drop for SliceWriter` (src/slice_writer.rs lines 16-23): the
writer's destructor runs `drop_in_place` on the first `init` elements of
the region and leaves the rest untouched. -/
def dropWriter {α : Type} (w : SliceWriter α) : List (Cell α) :=
  dropFirstCells w.cells w.init

/-- `SliceWriter::finish` (src/slice_writer.rs lines 84-89): asserts
`is_initialized` (`none` models the panic), then wraps the writer in
`ManuallyDrop` — so its partial-destructor logic never runs — and returns
the region as a single initialized handle. -/
def finish {α : Type} (w : SliceWriter α) : Option (List (Cell α)) :=
  if w.init = w.cells.length then some w.cells else none

end SliceWriter

/-- `impl Drop for Init<[T]>` (src/ptr.rs lines 40-46): dropping the
initialized slice handle runs `drop_in_place` on the whole slice, i.e.
each element's destructor exactly once. -/
def dropInitSlice {α : Type} (cells : List (Cell α)) : List (Cell α) :=
  cells.map Cell.dropOnce

/-- Run a sequence of `try_init` calls, the `i`-th with the `i`-th recipe
outcome as its (already applied) argument. -/
def runTryInits {α ε : Type} (w : SliceWriter α) : List (Except ε α) → SliceWriter α
  | [] => w
  | r :: rs => runTryInits (w.tryInit (fun x => x) r).1 rs

/-- The writer obtained by creating a `SliceWriter` over a fresh region of
`n` slots and issuing one `try_init` call per entry of `rs` (the entry is
the recipe outcome handed to that call). -/
def writerAfter {α ε : Type} (n : Nat) (rs : List (Except ε α)) : SliceWriter α :=
  runTryInits (SliceWriter.new (freshCells α n)) rs

/-- The writer state after successfully initializing the elements of `done`,
in order, into a fresh region of `n` slots. -/
def okRunWriter {α : Type} (done : List α) (n : Nat) : SliceWriter α :=
  { cells := done.map (fun v => ⟨some v, 1, 0⟩) ++
      List.replicate (n - done.length) Cell.uninit
    iterPos := done.length
    iterEnd := n
    init := done.length }

/-- The error type of the `CopyFromSlice` initializer
(src/slice.rs lines 31-36): carries both lengths. -/
structure CopyFromSliceError where
  src_len : Nat
  dest_len : Nat
deriving DecidableEq, Repr

/-- Element-wise effect of `copy_from_nonoverlapping(src, len)` on the
destination region: every destination slot is written with the
corresponding source element. -/
def copyCells {α : Type} : List α → List (Cell α) → List (Cell α)
  | [], cs => cs
  | _, [] => []
  | v :: vs, c :: cs => Cell.write v c :: copyCells vs cs

/-- `impl Initializer<[T]> for CopyFromSlice` (src/slice.rs lines 38-59):
on a length mismatch return the error carrying both lengths and leave the
region untouched; otherwise copy the source over the whole region and
return the initialized handle.  The first component is the region after
the call, the second the call's result. -/
def copyFromSliceTryInitInto {α : Type} (src : List α) (cells : List (Cell α)) :
    List (Cell α) × Except CopyFromSliceError Unit :=
  if src.length ≠ cells.length then
    (cells, Except.error ⟨src.length, cells.length⟩)
  else
    (copyCells src cells, Except.ok ())

/-- Provenance of the recipe value handed to one `try_init_unchecked` call
inside `Repeat`'s loop: either the original recipe (moved in), or the `k`-th
clone made from it. -/
inductive RepArg where
  | original
  | cloned (k : Nat)
deriving DecidableEq, Repr

/-- The loop of `impl Initializer<[T]> for Repeat` (src/slice.rs lines
77-86): `for _ in 0..writer.remaining_len() { writer.try_init_unchecked(self.init.clone())? }`.
Each iteration clones the recipe (`clones` counts the clone calls made so
far) and hands the clone — never the original — to `try_init_unchecked`.
The element stores the recipe value it was constructed from.  The recipe
is modelled as infallible (the claim concerns the cloning policy), so the
`?` never fires. -/
def repeatLoop (w : SliceWriter RepArg) (clones : Nat) : Nat → SliceWriter RepArg × Nat
  | 0 => (w, clones)
  | fuel + 1 =>
      let arg := RepArg.cloned clones
      let w' := (w.tryInitUnchecked (Except.ok (ε := Empty) arg)).1
      repeatLoop w' (clones + 1) fuel

/-- `Repeat::try_init_into` over a fresh region of `n` slots: build the
writer, run the loop `remaining_len` times, and return the final writer
together with the number of clone calls performed. -/
def repeatTryInitInto (n : Nat) : SliceWriter RepArg × Nat :=
  repeatLoop (SliceWriter.new (freshCells RepArg n)) 0
    ((SliceWriter.new (freshCells RepArg n)).remainingLen)

/-- Number of times `Repeat`'s loop clones the recipe when initializing a
slice of length `n`. -/
def repeatCloneCount (n : Nat) : Nat := (repeatTryInitInto n).2

/-- Whether any element of the slice was initialized from the original
recipe (rather than from a clone). -/
def repeatUsedOriginal (n : Nat) : Bool :=
  (repeatTryInitInto n).1.cells.any fun c => c.val == some RepArg.original

/-- `InitFromIterError` (src/slice.rs lines 104-109). -/
inductive InitFromIterError (ε : Type) where
  | Error (e : ε)
  | NotEnoughItems
deriving DecidableEq, Repr

/-- The loop of `impl Initializer<[T]> for InitFromIter` (src/slice.rs
lines 120-131): at most `fuel = remaining_len` iterations, each pulling the
next item from the source and feeding it to `try_init_unchecked`; stops
early with `NotEnoughItems` if the source is exhausted, or with `Error e`
if an item's recipe fails.  Returns the writer, the unconsumed remainder
of the source, and the early-exit error if any. -/
def initFromIterLoop {α ε : Type} (w : SliceWriter α) (src : List (Except ε α)) :
    Nat → SliceWriter α × List (Except ε α) × Option (InitFromIterError ε)
  | 0 => (w, src, none)
  | fuel + 1 =>
    match src with
    | [] => (w, [], some InitFromIterError.NotEnoughItems)
    | r :: rest =>
      match w.tryInitUnchecked r with
      | (w', Except.ok _) => initFromIterLoop w' rest fuel
      | (w', Except.error e) => (w', rest, some (InitFromIterError.Error e))

/-- The observable outcome of `InitFromIter::try_init_into`. -/
structure IterRun (ε α : Type) where
  /-- region contents when the call returns: the handle's cells on success,
  the region after the writer's rollback drop on error -/
  finalCells : List (Cell α)
  outcome : Except (InitFromIterError ε) Unit
  /-- whether the trailing `writer.finish()` panicked -/
  panicked : Bool
  /-- how many items were consumed from the source -/
  drawn : Nat
deriving DecidableEq, Repr

/-- `InitFromIter::try_init_into` (src/slice.rs lines 117-133): run the
loop; on an early error the writer is dropped on the way out (rollback);
on loop completion `writer.finish()` yields the handle (`panicked` records
a failing `finish` assertion).  `drawn` is the number of items consumed
from the source. -/
def initFromIterTryInitInto {α ε : Type} (src : List (Except ε α))
    (cells : List (Cell α)) : IterRun ε α :=
  match initFromIterLoop (SliceWriter.new cells) src
      ((SliceWriter.new cells).remainingLen) with
  | (w', rest, some e) =>
      { finalCells := w'.dropWriter
        outcome := Except.error e
        panicked := false
        drawn := src.length - rest.length }
  | (w', rest, none) =>
      match w'.finish with
      | some cs =>
          { finalCells := cs
            outcome := Except.ok ()
            panicked := false
            drawn := src.length - rest.length }
      | none =>
          { finalCells := w'.cells
            outcome := Except.ok ()
            panicked := true
            drawn := src.length - rest.length }

/-- Bit-level model of an `f32` argument: its IEEE-754 binary32 bit
pattern (a natural number below `2^32`). -/
def f32NegZeroBits : Nat := 2 ^ 31

/-- IEEE-754 equality of an `f32` with `0.0`, on bit patterns: exactly the
two signed zeros `+0.0` (all-zero bits) and `-0.0` (sign bit only) compare
equal to `0.0`; every other pattern (including NaNs) does not. -/
def f32EqZero (bits : Nat) : Bool := bits == 0 || bits == f32NegZeroBits

/-- `LayoutProvider<f32, f32>::is_zeroed` for `PrimitiveLayout`
(src/layout_provider.rs lines 103-107, instantiated by
`primitive! { .. f32 = 0.0 .. }`): `*args == 0.0`. -/
def f32IsZeroed (argBits : Nat) : Bool := f32EqZero argBits

/-- The normal write path for an `f32` argument (`Uninit::write` /
`Ctor` from the value): stores the argument's own bit pattern. -/
def f32WriteBits (argBits : Nat) : Nat := argBits

/-- The bit pattern a zero-filled (`alloc_zeroed`) `f32`-sized region
holds. -/
def f32ZeroFillBits : Nat := 0

/-- `is_zeroed` of `LayoutProvider<$t, $t>` for an integer primitive
(src/layout_provider.rs lines 103-107 with default zero `0`): integer
equality with zero, on the argument value. -/
def intIsZeroed (arg : Int) : Bool := arg == 0

/-- The bytes the normal write path stores for an integer argument,
modelled by its two's-complement value; zero-fill stores value `0`,
and for integers value equality coincides with byte equality. -/
def intWriteValue (arg : Int) : Int := arg

/-- `core::alloc::Layout`: byte size and alignment (the alignment of a
Rust `Layout` is always at least 1). -/
structure AllocLayout where
  size : Nat
  align : Nat
deriving DecidableEq, Repr

/-- `EmplaceError` (src/boxed.rs lines 21-28). -/
inductive EmplaceError (ε : Type) where
  | Layout
  | Alloc (l : AllocLayout)
  | Init (e : ε)
deriving DecidableEq, Repr

/-- An observable interaction with the global allocator. -/
inductive AllocEvent where
  | alloc (l : AllocLayout)
  | dealloc (l : AllocLayout)
deriving DecidableEq, Repr

/-- The environment `emplace_with` runs in: what the layout provider
computes for the initializer's arguments, whether the global allocator
succeeds, and the initializer's own outcome when it is run. -/
structure EmplaceEnv (ε : Type) where
  /-- `L::layout_for(&init)` -/
  layoutFor : Option AllocLayout
  /-- `L::is_zeroed(&init)` -/
  isZeroed : Bool
  /-- whether `alloc`/`alloc_zeroed` returns a non-null pointer -/
  allocOk : Bool
  /-- result of `uninit.try_init(init)` when the initializer is run -/
  initRes : Except ε Unit
deriving DecidableEq, Repr

/-- `boxed::emplace_with` (src/boxed.rs lines 67-127): compute the layout
(`Layout` error if impossible, before any allocation); obtain memory (for a
zero-sized layout the dangling aligned pointer, never null; otherwise from
the allocator, `Alloc` error carrying the layout if it returns null); if
`is_zeroed`, skip the initializer; otherwise run it under the `Allocation`
drop guard, which deallocates a non-zero-sized allocation when the `Init`
error propagates and is `mem::forget`-ten on success.  Returns the result
together with the ordered list of allocator interactions. -/
def emplaceWith {ε : Type} (env : EmplaceEnv ε) :
    Except (EmplaceError ε) Unit × List AllocEvent :=
  match env.layoutFor with
  | none => (Except.error EmplaceError.Layout, [])
  | some l =>
    if l.size ≠ 0 ∧ env.allocOk = false then
      (Except.error (EmplaceError.Alloc l), [])
    else if env.isZeroed then
      (Except.ok (), if l.size = 0 then [] else [AllocEvent.alloc l])
    else
      match env.initRes with
      | Except.ok _ =>
          (Except.ok (), if l.size = 0 then [] else [AllocEvent.alloc l])
      | Except.error e =>
          (Except.error (EmplaceError.Init e),
            if l.size = 0 then []
            else [AllocEvent.alloc l, AllocEvent.dealloc l])

/-- The state of a `Vec<T>`: its backing buffer of capacity-many slots and
its length (`len ≤ capacity`; slots `[0, len)` hold the stored elements). -/
structure VecModel (α : Type) where
  cells : List (Cell α)
  len : Nat
deriving DecidableEq, Repr

/-- A vector's capacity is the size of its backing buffer. -/
def VecModel.capacity {α : Type} (v : VecModel α) : Nat := v.cells.length

/-- `Vec::reserve(additional)`: ensure capacity for `len + additional`
elements; stored slots are untouched (a reallocation moves them
bit-for-bit, running no constructor or destructor).  The exact growth
amount is unspecified in Rust; the model grows to exactly the requested
capacity. -/
def VecModel.reserve {α : Type} (v : VecModel α) (additional : Nat) : VecModel α :=
  if v.len + additional ≤ v.capacity then v
  else { v with cells := v.cells ++
      List.replicate (v.len + additional - v.capacity) Cell.uninit }

/-- `VecExt::try_emplace_unchecked` (src/vec.rs lines 56-74): run the
initializer against the slot at index `len`; on error propagate it with
the vector untouched; on success the slot holds the constructed value
(the per-element handle is relinquished via `take_ownership`) and
`set_len(len + 1)` runs. -/
def VecModel.tryEmplaceUnchecked {α ε : Type} (v : VecModel α) (r : Except ε α) :
    VecModel α × Except ε Unit :=
  match r with
  | Except.error e => (v, Except.error e)
  | Except.ok x =>
      ({ v with cells := modifyCell v.cells v.len (Cell.write x), len := v.len + 1 },
        Except.ok ())

/-- `VecExt::try_emplace` (src/vec.rs lines 47-54): reserve one slot when
full, then `try_emplace_unchecked`. -/
def VecModel.tryEmplace {α ε : Type} (v : VecModel α) (r : Except ε α) :
    VecModel α × Except ε Unit :=
  (if v.len = v.capacity then v.reserve 1 else v).tryEmplaceUnchecked r

/-- The writer's sole mutable invariant (spec §3 "Sequence Writer state"),
as maintained by the code: `init ≤ iterPos ≤ iterEnd ≤ |cells|`; the state
is clean (`iterPos = init`, no failure yet) or abandoned (empty iterator);
each of the first `init` slots was constructed exactly once and never
destructed; every slot from `init` on is untouched. -/
def WInv {α : Type} (w : SliceWriter α) : Prop :=
  w.init ≤ w.iterPos ∧ w.iterPos ≤ w.iterEnd ∧ w.iterEnd ≤ w.cells.length ∧
  (w.iterPos = w.init ∨ w.iterEnd = w.iterPos) ∧
  (∀ i, i < w.init → (cellAt w.cells i).writes = 1 ∧
      (cellAt w.cells i).drops = 0) ∧
  (∀ i, i < w.cells.length → w.init ≤ i → cellAt w.cells i = Cell.uninit)

instance {α : Type} [DecidableEq α] (w : SliceWriter α) : Decidable (WInv w) := by
  unfold WInv
  infer_instance

section BasicLemmas

variable {α ε : Type}

theorem modifyCell_length (cells : List (Cell α)) (i : Nat) (f : Cell α → Cell α) :
    (modifyCell cells i f).length = cells.length := by
  induction cells generalizing i with
  | nil => rfl
  | cons c cs ih =>
    cases i with
    | zero => rfl
    | succ n => simpa [modifyCell] using ih n

theorem cellAt_modifyCell (cells : List (Cell α)) (i j : Nat) (f : Cell α → Cell α) :
    cellAt (modifyCell cells i f) j =
      if j = i ∧ j < cells.length then f (cellAt cells j) else cellAt cells j := by
  induction cells generalizing i j with
  | nil => simp [modifyCell, cellAt]
  | cons c cs ih =>
    cases i with
    | zero =>
      cases j with
      | zero => simp [modifyCell, cellAt]
      | succ m => simp [modifyCell, cellAt]
    | succ n =>
      cases j with
      | zero => simp [modifyCell, cellAt]
      | succ m =>
        simp only [modifyCell, cellAt, List.length_cons, ih n m]
        by_cases h1 : m = n
        · subst h1
          by_cases h2 : m < cs.length
          · simp [h2, Nat.succ_lt_succ h2]
          · simp [h2, fun h => h2 (Nat.lt_of_succ_lt_succ h)]
        · simp [h1, fun h : m + 1 = n + 1 => h1 (Nat.succ_injective h)]

theorem cellAt_dropFirstCells (cells : List (Cell α)) (n i : Nat) :
    cellAt (dropFirstCells cells n) i =
      if i < n ∧ i < cells.length then Cell.dropOnce (cellAt cells i)
      else cellAt cells i := by
  induction cells generalizing n i with
  | nil => cases n <;> simp [dropFirstCells, cellAt]
  | cons c cs ih =>
    cases n with
    | zero => simp [dropFirstCells]
    | succ m =>
      cases i with
      | zero => simp [dropFirstCells, cellAt]
      | succ k =>
        simp only [dropFirstCells, cellAt, List.length_cons, ih m k]
        by_cases h1 : k < m
        · by_cases h2 : k < cs.length
          · simp [h1, h2, Nat.succ_lt_succ h1, Nat.succ_lt_succ h2]
          · simp [h1, h2, fun h => h2 (Nat.lt_of_succ_lt_succ h)]
        · simp [h1, fun h => h1 (Nat.lt_of_succ_lt_succ h)]

theorem cellAt_freshCells (n i : Nat) :
    cellAt (freshCells α n) i = Cell.uninit := by
  induction n generalizing i with
  | zero => cases i <;> simp [freshCells, cellAt]
  | succ m ih =>
    cases i with
    | zero => simp [freshCells, List.replicate_succ, cellAt]
    | succ k =>
      simp only [freshCells, List.replicate_succ, cellAt] at *
      exact ih k

theorem cellAt_map_dropOnce (cells : List (Cell α)) (i : Nat) (h : i < cells.length) :
    cellAt (cells.map Cell.dropOnce) i = Cell.dropOnce (cellAt cells i) := by
  induction cells generalizing i with
  | nil => simp at h
  | cons c cs ih =>
    cases i with
    | zero => simp [cellAt]
    | succ k =>
      simp only [List.map_cons, cellAt]
      exact ih k (by simpa using Nat.lt_of_succ_lt_succ h)

end BasicLemmas

section RunLemmas

variable {α ε : Type}

theorem modifyCell_append (A B : List (Cell α)) (i : Nat) (f : Cell α → Cell α)
    (h : i = A.length) : modifyCell (A ++ B) i f = A ++ modifyCell B 0 f := by
  subst h
  induction A with
  | nil => simp
  | cons a as ih => simpa [modifyCell] using ih

theorem new_freshCells (n : Nat) :
    SliceWriter.new (freshCells α n) = okRunWriter [] n := by
  simp [SliceWriter.new, okRunWriter, freshCells]

theorem okRunWriter_cells_length (done : List α) (n : Nat) (h : done.length ≤ n) :
    (okRunWriter done n).cells.length = n := by
  simp [okRunWriter]
  omega

theorem tryInitUnchecked_okRun (done : List α) (n : Nat) (v : α)
    (h : done.length < n) :
    SliceWriter.tryInitUnchecked (okRunWriter done n) (Except.ok (ε := ε) v) =
      (okRunWriter (done ++ [v]) n, Except.ok ()) := by
  have hrep : n - done.length = (n - (done.length + 1)) + 1 := by omega
  simp only [SliceWriter.tryInitUnchecked, okRunWriter]
  rw [modifyCell_append _ _ _ _ (by simp), hrep, List.replicate_succ]
  simp [modifyCell, Cell.write, Cell.uninit]

theorem tryInit_of_noSlots (w : SliceWriter α) (recipe : Args → Except ε α)
    (args : Args) (h : ¬ w.iterPos < w.iterEnd) :
    w.tryInit recipe args = (w, SliceWriter.TryInitResult.noSlots args) := by
  unfold SliceWriter.tryInit
  rw [if_neg h]

theorem tryInit_of_ok (w : SliceWriter α) (recipe : Args → Except ε α)
    (args : Args) (v : α) (hlt : w.iterPos < w.iterEnd)
    (hr : recipe args = Except.ok v) :
    w.tryInit recipe args =
      ({ w with
          cells := modifyCell w.cells w.iterPos (Cell.write v)
          iterPos := w.iterPos + 1
          init := w.init + 1 },
        SliceWriter.TryInitResult.ok) := by
  unfold SliceWriter.tryInit SliceWriter.tryInitUnchecked
  rw [if_pos hlt, hr]

theorem tryInit_of_error (w : SliceWriter α) (recipe : Args → Except ε α)
    (args : Args) (e : ε) (hlt : w.iterPos < w.iterEnd)
    (hr : recipe args = Except.error e) :
    w.tryInit recipe args =
      ({ w with
          iterPos := w.iterPos + 1
          iterEnd := w.iterPos + 1 },
        SliceWriter.TryInitResult.fail e) := by
  unfold SliceWriter.tryInit SliceWriter.tryInitUnchecked
  rw [if_pos hlt, hr]

theorem tryInit_okRun (done : List α) (n : Nat) (v : α) (h : done.length < n) :
    SliceWriter.tryInit (okRunWriter done n) (fun x => x)
        (Except.ok (ε := ε) v) =
      (okRunWriter (done ++ [v]) n, SliceWriter.TryInitResult.ok) := by
  unfold SliceWriter.tryInit
  rw [if_pos (by simpa [okRunWriter] using h)]
  rw [show ((fun (x : Except ε α) => x) (Except.ok v)) = Except.ok v from rfl]
  rw [tryInitUnchecked_okRun done n v h]

theorem runTryInits_append (w : SliceWriter α) (as bs : List (Except ε α)) :
    runTryInits w (as ++ bs) = runTryInits (runTryInits w as) bs := by
  induction as generalizing w with
  | nil => simp [runTryInits]
  | cons a as ih => simp [runTryInits, ih]

theorem runTryInits_okRun (done vs : List α) (n : Nat)
    (h : done.length + vs.length ≤ n) :
    runTryInits (okRunWriter done n) (vs.map (Except.ok : α → Except ε α)) =
      okRunWriter (done ++ vs) n := by
  induction vs generalizing done with
  | nil => simp [runTryInits]
  | cons v vs ih =>
    simp only [List.map_cons, runTryInits]
    rw [tryInit_okRun done n v (by simp at h ⊢; omega)]
    rw [ih (done ++ [v]) (by simp at h ⊢; omega)]
    simp

theorem runTryInits_cells_length (w : SliceWriter α) (rs : List (Except ε α)) :
    (runTryInits w rs).cells.length = w.cells.length := by
  induction rs generalizing w with
  | nil => rfl
  | cons r rs ih =>
    rw [runTryInits, ih]
    unfold SliceWriter.tryInit
    by_cases hlt : w.iterPos < w.iterEnd
    · rw [if_pos hlt]
      rcases hres : w.tryInitUnchecked ((fun x => x) r) with ⟨w', r'⟩
      have hw' : w'.cells.length = w.cells.length := by
        cases r with
        | ok v =>
          simp only [SliceWriter.tryInitUnchecked] at hres
          cases hres
          simp [modifyCell_length]
        | error e =>
          simp only [SliceWriter.tryInitUnchecked] at hres
          cases hres
          rfl
      cases r' <;> simp [hres, hw']
    · rw [if_neg hlt]

theorem WInv_tryInitUnchecked (w : SliceWriter α) (hw : WInv w)
    (hlt : w.iterPos < w.iterEnd) (r : Except ε α) :
    WInv (w.tryInitUnchecked r).1 := by
  obtain ⟨h1, h2, h3, h4, h5, h6⟩ := hw
  have hclean : w.iterPos = w.init := by
    rcases h4 with h | h
    · exact h
    · omega
  have hposlen : w.iterPos < w.cells.length := lt_of_lt_of_le hlt h3
  cases r with
  | ok v =>
    unfold WInv SliceWriter.tryInitUnchecked
    dsimp only
    refine ⟨by omega, by omega, by rw [modifyCell_length]; omega,
      Or.inl (by omega), ?_, ?_⟩
    · intro i hi
      rw [cellAt_modifyCell]
      by_cases hii : i = w.iterPos
      · subst hii
        rw [if_pos ⟨rfl, hposlen⟩]
        rw [h6 _ hposlen (Nat.le_of_eq hclean.symm)]
        simp [Cell.write, Cell.uninit]
      · rw [if_neg (fun hc => hii hc.1)]
        exact h5 i (by omega)
    · intro i hilen hge
      rw [modifyCell_length] at hilen
      rw [cellAt_modifyCell, if_neg (fun hc => by omega)]
      exact h6 i hilen (by omega)
  | error e =>
    unfold WInv SliceWriter.tryInitUnchecked
    dsimp only
    exact ⟨by omega, by omega, by omega, Or.inr rfl, h5, h6⟩

theorem WInv_tryInit {Args : Type} (w : SliceWriter α) (hw : WInv w)
    (recipe : Args → Except ε α) (args : Args) :
    WInv (w.tryInit recipe args).1 := by
  unfold SliceWriter.tryInit
  by_cases hlt : w.iterPos < w.iterEnd
  · rw [if_pos hlt]
    have h := WInv_tryInitUnchecked w hw hlt (recipe args)
    rcases hres : w.tryInitUnchecked (recipe args) with ⟨w', r'⟩
    rw [hres] at h
    cases r' <;> simpa using h
  · rw [if_neg hlt]
    exact hw

theorem WInv_new (cells : List (Cell α))
    (hfresh : ∀ i, i < cells.length → cellAt cells i = Cell.uninit) :
    WInv (SliceWriter.new cells) := by
  refine ⟨Nat.le_refl _, Nat.zero_le _, Nat.le_refl _, Or.inl rfl, ?_, ?_⟩
  · intro i hi
    exact absurd hi (Nat.not_lt_zero i)
  · intro i hilen _
    exact hfresh i hilen

theorem WInv_new_fresh (n : Nat) : WInv (SliceWriter.new (freshCells α n)) :=
  WInv_new _ (fun i _ => cellAt_freshCells n i)

theorem WInv_runTryInits (w : SliceWriter α) (hw : WInv w)
    (rs : List (Except ε α)) : WInv (runTryInits w rs) := by
  induction rs generalizing w with
  | nil => exact hw
  | cons r rs ih => exact ih _ (WInv_tryInit w hw _ r)

theorem dropWriter_of_WInv (w : SliceWriter α) (hw : WInv w) :
    (∀ i, i < w.init → cellAt w.dropWriter i = ⟨none, 1, 1⟩) ∧
    (∀ i, i < w.cells.length → w.init ≤ i →
      cellAt w.dropWriter i = Cell.uninit) := by
  obtain ⟨h1, h2, h3, h4, h5, h6⟩ := hw
  constructor
  · intro i hi
    have hlen : i < w.cells.length := by omega
    rw [SliceWriter.dropWriter, cellAt_dropFirstCells, if_pos ⟨hi, hlen⟩]
    obtain ⟨hwr, hdr⟩ := h5 i hi
    simp [Cell.dropOnce, hwr, hdr]
  · intro i hlen hge
    rw [SliceWriter.dropWriter, cellAt_dropFirstCells, if_neg (fun hc => by omega)]
    exact h6 i hlen hge

theorem cellAt_append_lt (A B : List (Cell α)) (i : Nat) (h : i < A.length) :
    cellAt (A ++ B) i = cellAt A i := by
  induction A generalizing i with
  | nil => simp at h
  | cons a as ih =>
    cases i with
    | zero => simp [cellAt]
    | succ k =>
      simp only [List.cons_append, cellAt]
      exact ih k (by simpa using Nat.lt_of_succ_lt_succ h)

theorem dropFirstCells_append (A B : List (Cell α)) :
    dropFirstCells (A ++ B) A.length = A.map Cell.dropOnce ++ B := by
  induction A with
  | nil => cases B <;> simp [dropFirstCells]
  | cons a as ih => simp [dropFirstCells, ih]

theorem dropWriter_okRun (vs : List α) (n : Nat) :
    (okRunWriter vs n).dropWriter =
      (vs.map fun _ => (⟨none, 1, 1⟩ : Cell α)) ++
        List.replicate (n - vs.length) Cell.uninit := by
  unfold SliceWriter.dropWriter okRunWriter
  dsimp only
  rw [show vs.length = (vs.map fun v => (⟨some v, 1, 0⟩ : Cell α)).length by simp]
  rw [dropFirstCells_append]
  simp [List.map_map, Function.comp_def, Cell.dropOnce]

theorem WInv_okRun (vs : List α) (n : Nat) (h : vs.length ≤ n) :
    WInv (okRunWriter vs n) := by
  have h2 := WInv_runTryInits _ (WInv_new_fresh (α := α) n)
      (vs.map (Except.ok : α → Except Unit α))
  rwa [new_freshCells, runTryInits_okRun [] vs n (by simpa using h),
    List.nil_append] at h2

theorem finish_okRun (vs : List α) (n : Nat) (h : vs.length = n) :
    (okRunWriter vs n).finish = some (vs.map fun v => ⟨some v, 1, 0⟩) := by
  unfold SliceWriter.finish okRunWriter
  dsimp only
  rw [if_pos (by simp; omega)]
  simp [h]

theorem repeatLoop_spec (n : Nat) (fuel m : Nat) (h : m + fuel ≤ n) :
    repeatLoop (okRunWriter ((List.range m).map RepArg.cloned) n) m fuel =
      (okRunWriter ((List.range (m + fuel)).map RepArg.cloned) n, m + fuel) := by
  induction fuel generalizing m with
  | zero => simp [repeatLoop]
  | succ f ih =>
    simp only [repeatLoop]
    have hlen : ((List.range m).map RepArg.cloned).length < n := by
      rw [List.length_map, List.length_range]
      omega
    rw [tryInitUnchecked_okRun _ n (RepArg.cloned m) hlen]
    have hrange : (List.range m).map RepArg.cloned ++ [RepArg.cloned m] =
        (List.range (m + 1)).map RepArg.cloned := by
      rw [List.range_succ]
      simp
    dsimp only
    rw [hrange, ih (m + 1) (by omega)]
    have harith : m + 1 + f = m + (f + 1) := by omega
    rw [harith]

theorem repeatTryInitInto_spec (n : Nat) :
    repeatTryInitInto n =
      (okRunWriter ((List.range n).map RepArg.cloned) n, n) := by
  unfold repeatTryInitInto
  have h0 : SliceWriter.new (freshCells RepArg n) =
      okRunWriter ((List.range 0).map RepArg.cloned) n := by
    rw [new_freshCells]
    simp
  have hrem : (SliceWriter.new (freshCells RepArg n)).remainingLen = n := by
    simp [SliceWriter.new, SliceWriter.remainingLen, freshCells]
  rw [hrem, h0, repeatLoop_spec n n 0 (by omega)]
  simp

theorem initFromIterLoop_allOk (n : Nat) (done vs : List α) (fuel : Nat)
    (h : done.length + fuel ≤ n) :
    initFromIterLoop (okRunWriter done n)
        (vs.map (Except.ok : α → Except ε α)) fuel =
      if fuel ≤ vs.length then
        (okRunWriter (done ++ vs.take fuel) n, (vs.drop fuel).map Except.ok, none)
      else
        (okRunWriter (done ++ vs) n, [],
          some InitFromIterError.NotEnoughItems) := by
  induction fuel generalizing done vs with
  | zero => simp [initFromIterLoop]
  | succ f ih =>
    cases vs with
    | nil => simp [initFromIterLoop]
    | cons v rest =>
      simp only [List.map_cons, initFromIterLoop]
      rw [tryInitUnchecked_okRun done n v (by omega)]
      dsimp only
      rw [ih (done ++ [v]) rest (by simp; omega)]
      by_cases hf : f ≤ rest.length
      · rw [if_pos hf, if_pos (by simpa using Nat.succ_le_succ hf)]
        simp
      · rw [if_neg hf, if_neg (by simp; omega)]
        simp

theorem initFromIterLoop_rest (w : SliceWriter α) (src : List (Except ε α))
    (fuel : Nat) :
    src.length ≤ (initFromIterLoop w src fuel).2.1.length + fuel := by
  induction fuel generalizing w src with
  | zero => simp [initFromIterLoop]
  | succ f ih =>
    cases src with
    | nil => simp [initFromIterLoop]
    | cons r rest =>
      simp only [initFromIterLoop]
      rcases hres : w.tryInitUnchecked r with ⟨w', r'⟩
      cases r' with
      | ok u =>
        have := ih w' rest
        simp only [List.length_cons]
        omega
      | error e =>
        simp only [List.length_cons]
        omega

theorem initFromIter_fresh_allOk (N : Nat) (vs : List α) :
    initFromIterTryInitInto (vs.map (Except.ok : α → Except ε α))
        (freshCells α N) =
      if N ≤ vs.length then
        { finalCells := (vs.take N).map (fun v => ⟨some v, 1, 0⟩)
          outcome := Except.ok ()
          panicked := false
          drawn := N }
      else
        { finalCells := (vs.map fun _ => (⟨none, 1, 1⟩ : Cell α)) ++
            List.replicate (N - vs.length) Cell.uninit
          outcome := Except.error InitFromIterError.NotEnoughItems
          panicked := false
          drawn := vs.length } := by
  have hrem : (SliceWriter.new (freshCells α N)).remainingLen = N := by
    simp [SliceWriter.new, SliceWriter.remainingLen, freshCells]
  unfold initFromIterTryInitInto
  rw [hrem, new_freshCells, initFromIterLoop_allOk N [] vs N (by simp)]
  by_cases hN : N ≤ vs.length
  · rw [if_pos hN, if_pos hN]
    dsimp only
    rw [List.nil_append, finish_okRun _ N (by simp [Nat.min_eq_left hN])]
    have hdrawn : (vs.map (Except.ok : α → Except ε α)).length -
        ((vs.drop N).map (Except.ok : α → Except ε α)).length = N := by
      simp only [List.length_map, List.length_drop]
      omega
    rw [hdrawn]
  · rw [if_neg hN, if_neg hN]
    dsimp only
    rw [List.nil_append, dropWriter_okRun]
    simp

theorem initFromIter_drawn_le (src : List (Except ε α)) (cells : List (Cell α)) :
    (initFromIterTryInitInto src cells).drawn ≤ cells.length := by
  have hrem : (SliceWriter.new cells).remainingLen = cells.length := by
    simp [SliceWriter.new, SliceWriter.remainingLen]
  have hrest := initFromIterLoop_rest (SliceWriter.new cells) src
      ((SliceWriter.new cells).remainingLen)
  unfold initFromIterTryInitInto
  rcases hout : initFromIterLoop (SliceWriter.new cells) src
      ((SliceWriter.new cells).remainingLen) with ⟨w', rest, err?⟩
  rw [hout, hrem] at hrest
  dsimp only at hrest
  cases err? with
  | some e =>
    dsimp only
    omega
  | none =>
    dsimp only
    cases hfin : w'.finish with
    | some cs =>
      dsimp only
      omega
    | none =>
      dsimp only
      omega

theorem copyCells_length (src : List α) (cells : List (Cell α)) :
    (copyCells src cells).length = cells.length := by
  induction src generalizing cells with
  | nil => simp [copyCells]
  | cons v vs ih =>
    cases cells with
    | nil => simp [copyCells]
    | cons c cs => simp [copyCells, ih]

theorem copyCells_map_val (src : List α) (cells : List (Cell α))
    (h : src.length = cells.length) :
    (copyCells src cells).map Cell.val = src.map some := by
  induction src generalizing cells with
  | nil =>
    cases cells with
    | nil => simp [copyCells]
    | cons c cs => simp at h
  | cons v vs ih =>
    cases cells with
    | nil => simp at h
    | cons c cs =>
      simp only [copyCells, List.map_cons, Cell.write]
      rw [ih cs (by simpa using h)]

theorem reserve_len (v : VecModel α) (a : Nat) : (v.reserve a).len = v.len := by
  unfold VecModel.reserve
  split <;> rfl

theorem reserve_capacity (v : VecModel α) (a : Nat) :
    v.len + a ≤ (v.reserve a).capacity := by
  unfold VecModel.reserve VecModel.capacity
  split
  · assumption
  · dsimp only
    simp only [List.length_append, List.length_replicate]
    omega

theorem reserve_cellAt (v : VecModel α) (a : Nat) (i : Nat) (h : i < v.capacity) :
    cellAt (v.reserve a).cells i = cellAt v.cells i := by
  unfold VecModel.reserve
  split
  · rfl
  · exact cellAt_append_lt _ _ i h

end RunLemmas

/-- C1: however a `SliceWriter` over a fresh region of `N` slots is driven
(any sequence of `try_init` calls, with any successes and failures), if it
is then discarded before `finish()`, its destructor runs the destructor of
each of the first `count` elements exactly once (each was constructed
exactly once and is destructed exactly once) and touches none of the
elements `count..N` (never constructed, never destructed); in particular,
for a recipe sequence that succeeds `k - 1` times and then fails
deterministically on the `k`-th element (`k ≤ N`), the count at that point
is exactly `k - 1`. -/
theorem C1_partial_failure_rollback {α ε : Type} (N : Nat)
    (rs : List (Except ε α)) :
    (∀ i, i < (writerAfter N rs).init →
      cellAt (writerAfter N rs).dropWriter i = ⟨none, 1, 1⟩) ∧
    (∀ i, i < N → (writerAfter N rs).init ≤ i →
      cellAt (writerAfter N rs).dropWriter i = Cell.uninit) ∧
    (∀ (vs : List α) (e : ε), rs = vs.map Except.ok ++ [Except.error e] →
      vs.length < N → (writerAfter N rs).init = vs.length) := by
  have hw : WInv (writerAfter N rs) :=
    WInv_runTryInits _ (WInv_new_fresh N) rs
  have hlen : (writerAfter N rs).cells.length = N := by
    unfold writerAfter
    rw [runTryInits_cells_length]
    simp [SliceWriter.new, freshCells]
  have hd := dropWriter_of_WInv _ hw
  refine ⟨hd.1, ?_, ?_⟩
  · intro i hiN hge
    exact hd.2 i (by omega) hge
  · intro vs e hrs hlt
    subst hrs
    unfold writerAfter
    rw [runTryInits_append, new_freshCells,
      runTryInits_okRun [] vs N (by simpa using Nat.le_of_lt hlt),
      List.nil_append]
    simp only [runTryInits]
    rw [tryInit_of_error (okRunWriter vs N) (fun x => x) (Except.error e) e
      (by dsimp only [okRunWriter]; exact hlt) rfl]
    simp [okRunWriter]

/-- Witness for C1 at `N = 5` with two successes then a failure (`k = 3`):
the two initialized elements are rolled back exactly once each, element 4
is untouched, and the frozen count is 2. -/
theorem C1_partial_failure_rollback_witness :
    cellAt (writerAfter (ε := Nat) 5
        [Except.ok 10, Except.ok 20, Except.error 99]).dropWriter 0 =
      ⟨none, 1, 1⟩ ∧
    cellAt (writerAfter (ε := Nat) 5
        [Except.ok 10, Except.ok 20, Except.error 99]).dropWriter 4 =
      Cell.uninit ∧
    (writerAfter (ε := Nat) 5
        [Except.ok 10, Except.ok 20, Except.error 99]).init = 2 := by
  have h := C1_partial_failure_rollback (α := Nat) (ε := Nat) 5
      [Except.ok 10, Except.ok 20, Except.error 99]
  refine ⟨h.1 0 (by decide), h.2.1 4 (by decide) (by decide), ?_⟩
  have h3 := h.2.2 [10, 20] 99 rfl (by decide)
  simpa using h3

/-- C2: issuing `N` successful `try_init` calls on a `SliceWriter` over a
fresh region of length `N` and then calling `finish()` yields one
initialized handle over exactly `N` elements whose `i`-th element holds
precisely the value the `i`-th recipe produced, in order, each constructed
exactly once and never destructed. -/
theorem C2_all_success_readback {α ε : Type} (N : Nat) (vs : List α)
    (h : vs.length = N) :
    (writerAfter (ε := ε) N (vs.map Except.ok)).finish =
        some (vs.map fun v => ⟨some v, 1, 0⟩) ∧
    (vs.map fun v => (⟨some v, 1, 0⟩ : Cell α)).length = N ∧
    (vs.map fun v => (⟨some v, 1, 0⟩ : Cell α)).map Cell.val = vs.map some := by
  refine ⟨?_, by simpa using h, by simp [List.map_map, Function.comp_def]⟩
  unfold writerAfter
  rw [new_freshCells, runTryInits_okRun [] vs N (by simp; omega),
    List.nil_append, finish_okRun vs N h]

/-- Witness for C2 at `N = 3` with values 5, 6, 7. -/
theorem C2_all_success_readback_witness :
    (writerAfter (ε := Unit) 3
        ([5, 6, 7].map Except.ok)).finish =
      some ([5, 6, 7].map fun v => ⟨some v, 1, 0⟩) ∧
    ([5, 6, 7].map fun v => (⟨some v, 1, 0⟩ : Cell Nat)).map Cell.val =
      [some 5, some 6, some 7] := by
  have h := C2_all_success_readback (ε := Unit) 3 [5, 6, 7] rfl
  exact ⟨h.1, h.2.2⟩

/-- C3: for any writer state satisfying the writer invariant,
`try_init(args)` (a) is a no-op returning the arguments back when there is
no remaining slot; (b) otherwise, on recipe success it initializes exactly
the slot at index `count` and increments `count` by exactly one; (c) on
recipe failure it propagates the recipe's error unchanged, leaves `count`
and the region unchanged, and a subsequent drop destructs exactly the
first `count` elements and no others. -/
theorem C3_try_init_contract {α ε Args : Type} (w : SliceWriter α)
    (hw : WInv w) (recipe : Args → Except ε α) (args : Args) :
    (w.remainingLen = 0 →
      w.tryInit recipe args = (w, SliceWriter.TryInitResult.noSlots args)) ∧
    (∀ v, recipe args = Except.ok v → 0 < w.remainingLen →
      (w.tryInit recipe args).2 = SliceWriter.TryInitResult.ok ∧
      (w.tryInit recipe args).1.init = w.init + 1 ∧
      (w.tryInit recipe args).1.cells = modifyCell w.cells w.init (Cell.write v)) ∧
    (∀ e, recipe args = Except.error e → 0 < w.remainingLen →
      (w.tryInit recipe args).2 = SliceWriter.TryInitResult.fail e ∧
      (w.tryInit recipe args).1.init = w.init ∧
      (w.tryInit recipe args).1.cells = w.cells ∧
      (∀ i, i < w.init →
        cellAt (w.tryInit recipe args).1.dropWriter i = ⟨none, 1, 1⟩) ∧
      (∀ i, i < w.cells.length → w.init ≤ i →
        cellAt (w.tryInit recipe args).1.dropWriter i = Cell.uninit)) := by
  have hclean : w.iterPos < w.iterEnd → w.iterPos = w.init := by
    intro hlt
    rcases hw.2.2.2.1 with h | h
    · exact h
    · omega
  refine ⟨?_, ?_, ?_⟩
  · intro h0
    exact tryInit_of_noSlots w recipe args (by unfold SliceWriter.remainingLen at h0; omega)
  · intro v hr hpos
    have hlt : w.iterPos < w.iterEnd := by
      unfold SliceWriter.remainingLen at hpos
      omega
    rw [tryInit_of_ok w recipe args v hlt hr]
    exact ⟨rfl, rfl, by rw [hclean hlt]⟩
  · intro e hr hpos
    have hlt : w.iterPos < w.iterEnd := by
      unfold SliceWriter.remainingLen at hpos
      omega
    have hw' := WInv_tryInit w hw recipe args
    have hd := dropWriter_of_WInv _ hw'
    rw [tryInit_of_error w recipe args e hlt hr] at hd ⊢
    dsimp only at hd ⊢
    exact ⟨rfl, rfl, rfl, hd.1, hd.2⟩

/-- Witness for C3: a writer over three slots with one element already
initialized; a successful call initializes slot 1 and bumps the count to
2, a failing call propagates the error with the count still 1, and an
exhausted writer returns the arguments back. -/
theorem C3_try_init_contract_witness :
    ((⟨[⟨some 7, 1, 0⟩, Cell.uninit, Cell.uninit], 1, 3, 1⟩ :
        SliceWriter Nat).tryInit (fun n => (Except.ok n : Except Unit Nat))
        42).1.init = 2 ∧
    ((⟨[⟨some 7, 1, 0⟩, Cell.uninit, Cell.uninit], 1, 3, 1⟩ :
        SliceWriter Nat).tryInit (fun _ => (Except.error () : Except Unit Nat))
        42).1.init = 1 ∧
    ((⟨[⟨some 7, 1, 0⟩, Cell.uninit, Cell.uninit], 2, 2, 1⟩ :
        SliceWriter Nat).tryInit (fun n => (Except.ok n : Except Unit Nat))
        42).2 = SliceWriter.TryInitResult.noSlots 42 := by
  refine ⟨?_, ?_, ?_⟩
  · exact (((C3_try_init_contract
      (⟨[⟨some 7, 1, 0⟩, Cell.uninit, Cell.uninit], 1, 3, 1⟩ : SliceWriter Nat)
      (by decide) (fun n => (Except.ok n : Except Unit Nat)) 42).2.1 42 rfl
      (by decide)).2.1)
  · exact (((C3_try_init_contract
      (⟨[⟨some 7, 1, 0⟩, Cell.uninit, Cell.uninit], 1, 3, 1⟩ : SliceWriter Nat)
      (by decide) (fun _ => (Except.error () : Except Unit Nat)) 42).2.2 ()
      rfl (by decide)).2.1)
  · rw [(C3_try_init_contract
      (⟨[⟨some 7, 1, 0⟩, Cell.uninit, Cell.uninit], 2, 2, 1⟩ : SliceWriter Nat)
      (by decide) (fun n => (Except.ok n : Except Unit Nat)) 42).1 (by decide)]

/-- C4: for any writer state satisfying the writer invariant, `finish()`
panics exactly when `is_initialized()` is false; when `count = N` it
returns the whole region as a single initialized handle without running
the writer's rollback (no slot has ever been destructed when the handle is
returned), and dropping the returned handle then destructs each element
exactly once. -/
theorem C4_finish_contract {α : Type} (w : SliceWriter α) (hw : WInv w) :
    (w.isInitialized = false → w.finish = none) ∧
    (w.isInitialized = true →
      w.finish = some w.cells ∧
      (∀ i, i < w.cells.length → (cellAt w.cells i).drops = 0) ∧
      (∀ i, i < w.cells.length →
        cellAt (dropInitSlice w.cells) i = ⟨none, 1, 1⟩)) := by
  constructor
  · intro h
    have hne : ¬ w.init = w.cells.length := by
      simpa [SliceWriter.isInitialized] using h
    unfold SliceWriter.finish
    rw [if_neg hne]
  · intro h
    have heq : w.init = w.cells.length := by
      simpa [SliceWriter.isInitialized] using h
    have h5 := hw.2.2.2.2.1
    refine ⟨by unfold SliceWriter.finish; rw [if_pos heq], ?_, ?_⟩
    · intro i hi
      exact (h5 i (by omega)).2
    · intro i hi
      obtain ⟨hwr, hdr⟩ := h5 i (by omega)
      rw [dropInitSlice, cellAt_map_dropOnce _ _ hi]
      simp [Cell.dropOnce, hwr, hdr]

/-- Witness for C4: a fully initialized writer over one slot finishes into
the handle and the handle's drop destructs the element once; an incomplete
writer over one slot makes `finish` panic. -/
theorem C4_finish_contract_witness :
    (⟨[⟨some 9, 1, 0⟩], 1, 1, 1⟩ : SliceWriter Nat).finish =
      some [⟨some 9, 1, 0⟩] ∧
    cellAt (dropInitSlice [(⟨some 9, 1, 0⟩ : Cell Nat)]) 0 = ⟨none, 1, 1⟩ ∧
    (⟨[Cell.uninit], 0, 1, 0⟩ : SliceWriter Nat).finish = none := by
  have h1 := (C4_finish_contract
      (⟨[⟨some 9, 1, 0⟩], 1, 1, 1⟩ : SliceWriter Nat) (by decide)).2 (by decide)
  have h2 := (C4_finish_contract
      (⟨[Cell.uninit], 0, 1, 0⟩ : SliceWriter Nat) (by decide)).1 (by decide)
  exact ⟨h1.1, h1.2.2 0 (by decide), h2⟩

/-- C5: the bulk copy-from-slice initializer over a destination of length
`dest_len` from a source of length `src_len` returns, when the lengths
differ, the length-mismatch error carrying both `src_len` and `dest_len`
with the destination region completely untouched; when the lengths are
equal it entirely succeeds, producing an initialized handle over the whole
run whose contents equal the source element-for-element. -/
theorem C5_copy_from_slice_contract {α : Type} (src : List α)
    (cells : List (Cell α)) :
    (src.length ≠ cells.length →
      copyFromSliceTryInitInto src cells =
        (cells, Except.error ⟨src.length, cells.length⟩)) ∧
    (src.length = cells.length →
      (copyFromSliceTryInitInto src cells).2 = Except.ok () ∧
      (copyFromSliceTryInitInto src cells).1.map Cell.val = src.map some ∧
      (copyFromSliceTryInitInto src cells).1.length = cells.length) := by
  constructor
  · intro hne
    unfold copyFromSliceTryInitInto
    rw [if_pos hne]
  · intro heq
    unfold copyFromSliceTryInitInto
    rw [if_neg (by omega)]
    exact ⟨rfl, copyCells_map_val src cells heq, copyCells_length src cells⟩

/-- Witness for C5: copying a source of length 4 into a region of length 5
yields the error carrying `(src_len = 4, dest_len = 5)` and performs zero
writes; copying a source of length 2 into a region of length 2 succeeds
with the source's contents. -/
theorem C5_copy_from_slice_contract_witness :
    copyFromSliceTryInitInto [1, 2, 3, 4] (freshCells Nat 5) =
      (freshCells Nat 5, Except.error ⟨4, 5⟩) ∧
    (copyFromSliceTryInitInto [1, 2] (freshCells Nat 2)).1.map Cell.val =
      [some 1, some 2] := by
  have h1 := (C5_copy_from_slice_contract [1, 2, 3, 4] (freshCells Nat 5)).1
      (by decide)
  have h2 := (C5_copy_from_slice_contract [1, 2] (freshCells Nat 2)).2
      (by decide)
  exact ⟨h1, h2.2.1⟩

/-- C6 counterexample: on a slice of length `N = 1` the claim demands
`N - 1 = 0` clone calls, with the original recipe consumed for the (only)
element; the code instead clones once and never hands the original to any
element. -/
theorem C6_repeat_clone_counterexample :
    repeatCloneCount 1 = 1 ∧ ¬ repeatCloneCount 1 = 1 - 1 ∧
    repeatUsedOriginal 1 = false := by
  refine ⟨?_, ?_, ?_⟩ <;> decide

/-- C6 amended: the repeat-same-recipe bulk initializer over a slice of
length `N` clones the recipe once per element — `N` clone calls in total —
never hands the original recipe to any element (the original is simply
dropped at the end), and initializes the `k`-th slot from the `k`-th
clone. -/
theorem C6_repeat_clone_amended (n : Nat) :
    repeatCloneCount n = n ∧ repeatUsedOriginal n = false ∧
    (repeatTryInitInto n).1.finish =
      some ((List.range n).map fun k => ⟨some (RepArg.cloned k), 1, 0⟩) := by
  have h := repeatTryInitInto_spec n
  refine ⟨?_, ?_, ?_⟩
  · unfold repeatCloneCount
    rw [h]
  · unfold repeatUsedOriginal
    rw [h]
    dsimp only [okRunWriter]
    rw [List.any_eq_false]
    intro c hc
    simp only [List.length_map, List.length_range, Nat.sub_self,
      List.replicate_zero, List.append_nil, List.mem_map] at hc
    obtain ⟨k, hex, hk⟩ := hc
    subst hk
    obtain ⟨a, _, hak⟩ := hex
    subst hak
    simp
  · rw [h]
    dsimp only
    have hfin := finish_okRun ((List.range n).map RepArg.cloned) n (by simp)
    rw [hfin, List.map_map]
    rfl

/-- C7: the pull-from-external-sequence initializer over a fresh region of
length `N` consumes at most `N` items from any source; with a source of
exactly `N` (infallible) items it succeeds, drawing all `N` items and
storing them in order; with a source of fewer than `N` items it fails with
the structurally distinct not-enough-items error after rolling back every
element constructed so far (each written once and destructed once, the
tail untouched); and a source with more than `N` items is not an error —
exactly `N` items are drawn and the extras are never pulled. -/
theorem C7_init_from_iter_contract {α ε : Type} (N : Nat)
    (src : List (Except ε α)) (vs : List α) :
    ((initFromIterTryInitInto src (freshCells α N)).drawn ≤ N) ∧
    (vs.length = N →
      initFromIterTryInitInto (vs.map (Except.ok : α → Except ε α))
          (freshCells α N) =
        { finalCells := vs.map fun v => ⟨some v, 1, 0⟩
          outcome := Except.ok ()
          panicked := false
          drawn := N }) ∧
    (vs.length < N →
      initFromIterTryInitInto (vs.map (Except.ok : α → Except ε α))
          (freshCells α N) =
        { finalCells := (vs.map fun _ => (⟨none, 1, 1⟩ : Cell α)) ++
            List.replicate (N - vs.length) Cell.uninit
          outcome := Except.error InitFromIterError.NotEnoughItems
          panicked := false
          drawn := vs.length }) ∧
    (N < vs.length →
      (initFromIterTryInitInto (vs.map (Except.ok : α → Except ε α))
          (freshCells α N)).outcome = Except.ok () ∧
      (initFromIterTryInitInto (vs.map (Except.ok : α → Except ε α))
          (freshCells α N)).drawn = N) := by
  refine ⟨?_, ?_, ?_, ?_⟩
  · have h := initFromIter_drawn_le src (freshCells α N)
    simpa [freshCells] using h
  · intro h
    rw [initFromIter_fresh_allOk, if_pos (by omega)]
    subst h
    rw [List.take_length]
  · intro h
    rw [initFromIter_fresh_allOk, if_neg (by omega)]
  · intro h
    rw [initFromIter_fresh_allOk, if_pos (by omega)]
    exact ⟨rfl, rfl⟩

/-- Witness for C7: over a region of length 3, a one-item source draws at
most 3; a three-item source succeeds; a two-item source fails with
`NotEnoughItems`. -/
theorem C7_init_from_iter_contract_witness :
    (initFromIterTryInitInto (ε := Unit) [Except.ok 7]
        (freshCells Nat 3)).drawn ≤ 3 ∧
    (initFromIterTryInitInto ([5, 6, 7].map (Except.ok : Nat → Except Unit Nat))
        (freshCells Nat 3)).outcome = Except.ok () ∧
    (initFromIterTryInitInto ([5, 6].map (Except.ok : Nat → Except Unit Nat))
        (freshCells Nat 3)).outcome =
      Except.error InitFromIterError.NotEnoughItems := by
  have h1 := C7_init_from_iter_contract (ε := Unit) 3 [Except.ok 7] [5, 6, 7]
  have h2 := C7_init_from_iter_contract (ε := Unit) 3 [Except.ok 7] [5, 6]
  refine ⟨h1.1, ?_, ?_⟩
  · rw [h1.2.1 rfl]
  · rw [h2.2.2.1 (by decide)]

/-- C8: the claim demands that every argument with `is_zeroed = true`
writes a region byte-identical to a zero-filled one; the shipped `f32`
provider computes `is_zeroed` as IEEE-754 equality with `0.0`, which also
accepts `-0.0`, whose written bit pattern (sign bit set) differs from the
all-zero bytes of a zero-filled region — contradicting the trait's own
safety contract that zeroing must have the same effect as initialization.
This theorem evaluates the code at the failing input `-0.0f32`. -/
theorem C8_is_zeroed_neg_zero_bug :
    f32IsZeroed f32NegZeroBits = true ∧
    ¬ f32WriteBits f32NegZeroBits = f32ZeroFillBits := by
  constructor <;> decide

/-- C9: `boxed::emplace_with` follows strict allocation stack discipline:
a missing layout yields the `Layout` error before any allocation; a failed
allocation yields the `Alloc` error carrying the requested layout with no
allocator interaction recorded; a failing initializer deallocates the
(non-zero-sized) allocation before the `Init` error is returned, so every
allocation is paired with its deallocation; and on success (zero-fill
shortcut or successful initializer) the single allocation is transferred
out with no deallocation. -/
theorem C9_emplace_alloc_discipline {ε : Type} (env : EmplaceEnv ε) :
    (env.layoutFor = none →
      emplaceWith env = (Except.error EmplaceError.Layout, [])) ∧
    (∀ l, env.layoutFor = some l → l.size ≠ 0 → env.allocOk = false →
      emplaceWith env = (Except.error (EmplaceError.Alloc l), [])) ∧
    (∀ l e, env.layoutFor = some l → (l.size = 0 ∨ env.allocOk = true) →
      env.isZeroed = false → env.initRes = Except.error e →
      emplaceWith env =
        (Except.error (EmplaceError.Init e),
          if l.size = 0 then []
          else [AllocEvent.alloc l, AllocEvent.dealloc l])) ∧
    (∀ l, env.layoutFor = some l → (l.size = 0 ∨ env.allocOk = true) →
      (env.isZeroed = true ∨ env.initRes = Except.ok ()) →
      emplaceWith env =
        (Except.ok (), if l.size = 0 then [] else [AllocEvent.alloc l])) := by
  refine ⟨?_, ?_, ?_, ?_⟩
  · intro h
    unfold emplaceWith
    rw [h]
  · intro l hl hsz ha
    unfold emplaceWith
    rw [hl]
    dsimp only
    rw [if_pos ⟨hsz, ha⟩]
  · intro l e hl halloc hz hinit
    have hcond : ¬ (l.size ≠ 0 ∧ env.allocOk = false) := by
      rcases halloc with h | h
      · exact fun hc => hc.1 h
      · intro hc
        rw [h] at hc
        exact absurd hc.2 (by simp)
    simp [emplaceWith, hl, hcond, hz, hinit]
  · intro l hl halloc hok
    have hcond : ¬ (l.size ≠ 0 ∧ env.allocOk = false) := by
      rcases halloc with h | h
      · exact fun hc => hc.1 h
      · intro hc
        rw [h] at hc
        exact absurd hc.2 (by simp)
    rcases hok with hz | hinit
    · simp [emplaceWith, hl, hcond, hz]
    · cases hz : env.isZeroed
      · simp [emplaceWith, hl, hcond, hz, hinit]
      · simp [emplaceWith, hl, hcond, hz]

/-- Witness for C9: the four paths at a concrete non-zero-sized layout:
no layout, failed allocation, failed initializer (alloc then dealloc), and
success (alloc only, never deallocated). -/
theorem C9_emplace_alloc_discipline_witness :
    emplaceWith (ε := Unit) ⟨none, false, true, Except.ok ()⟩ =
      (Except.error EmplaceError.Layout, []) ∧
    emplaceWith (ε := Unit) ⟨some ⟨8, 4⟩, false, false, Except.ok ()⟩ =
      (Except.error (EmplaceError.Alloc ⟨8, 4⟩), []) ∧
    emplaceWith (ε := Unit) ⟨some ⟨8, 4⟩, false, true, Except.error ()⟩ =
      (Except.error (EmplaceError.Init ()),
        [AllocEvent.alloc ⟨8, 4⟩, AllocEvent.dealloc ⟨8, 4⟩]) ∧
    emplaceWith (ε := Unit) ⟨some ⟨8, 4⟩, false, true, Except.ok ()⟩ =
      (Except.ok (), [AllocEvent.alloc ⟨8, 4⟩]) := by
  refine ⟨?_, ?_, ?_, ?_⟩
  · exact (C9_emplace_alloc_discipline
      (⟨none, false, true, Except.ok ()⟩ : EmplaceEnv Unit)).1 rfl
  · exact (C9_emplace_alloc_discipline
      (⟨some ⟨8, 4⟩, false, false, Except.ok ()⟩ : EmplaceEnv Unit)).2.1
      ⟨8, 4⟩ rfl (by decide) rfl
  · have h := (C9_emplace_alloc_discipline
      (⟨some ⟨8, 4⟩, false, true, Except.error ()⟩ : EmplaceEnv Unit)).2.2.1
      ⟨8, 4⟩ () rfl (Or.inr rfl) rfl rfl
    simpa using h
  · have h := (C9_emplace_alloc_discipline
      (⟨some ⟨8, 4⟩, false, true, Except.ok ()⟩ : EmplaceEnv Unit)).2.2.2
      ⟨8, 4⟩ rfl (Or.inr rfl) (Or.inr rfl)
    simpa using h

/-- C10: `Vec` emplace is atomic on error: if the element initializer
fails, both `try_emplace` and `try_emplace_unchecked` propagate the error
unchanged with the vector's length and every stored element unchanged
(`try_emplace_unchecked` leaves the whole vector untouched); if it
succeeds, the length grows by exactly one, the previously stored elements
are unchanged, and the new last element holds the constructed value. -/
theorem C10_vec_try_emplace_atomic {α ε : Type} (v : VecModel α)
    (hlen : v.len ≤ v.capacity) (r : Except ε α) :
    (∀ e, r = Except.error e →
      (v.tryEmplace r).2 = Except.error e ∧
      (v.tryEmplace r).1.len = v.len ∧
      (∀ i, i < v.len → cellAt (v.tryEmplace r).1.cells i = cellAt v.cells i) ∧
      v.tryEmplaceUnchecked r = (v, Except.error e)) ∧
    (∀ x, r = Except.ok x →
      (v.tryEmplace r).2 = Except.ok () ∧
      (v.tryEmplace r).1.len = v.len + 1 ∧
      (∀ i, i < v.len → cellAt (v.tryEmplace r).1.cells i = cellAt v.cells i) ∧
      (cellAt (v.tryEmplace r).1.cells v.len).val = some x ∧
      (v.len < v.capacity →
        (v.tryEmplaceUnchecked r).2 = Except.ok () ∧
        (v.tryEmplaceUnchecked r).1.len = v.len + 1 ∧
        (cellAt (v.tryEmplaceUnchecked r).1.cells v.len).val = some x)) := by
  have hwlen : (if v.len = v.capacity then v.reserve 1 else v).len = v.len := by
    split
    · exact reserve_len v 1
    · rfl
  have hwcap : v.len < (if v.len = v.capacity then v.reserve 1 else v).capacity := by
    split
    · have := reserve_capacity v 1
      omega
    · unfold VecModel.capacity at *
      omega
  have hwcell : ∀ i, i < v.len →
      cellAt (if v.len = v.capacity then v.reserve 1 else v).cells i =
        cellAt v.cells i := by
    intro i hi
    split
    · exact reserve_cellAt v 1 i (by omega)
    · rfl
  constructor
  · intro e hr
    subst hr
    refine ⟨rfl, hwlen, ?_, rfl⟩
    intro i hi
    exact hwcell i hi
  · intro x hr
    subst hr
    have hcaplen : v.len <
        (if v.len = v.capacity then v.reserve 1 else v).cells.length := hwcap
    refine ⟨rfl, ?_, ?_, ?_, ?_⟩
    · unfold VecModel.tryEmplace VecModel.tryEmplaceUnchecked
      dsimp only
      omega
    · intro i hi
      unfold VecModel.tryEmplace VecModel.tryEmplaceUnchecked
      dsimp only
      rw [hwlen, cellAt_modifyCell, if_neg (fun hc => by omega)]
      exact hwcell i hi
    · unfold VecModel.tryEmplace VecModel.tryEmplaceUnchecked
      dsimp only
      rw [hwlen, cellAt_modifyCell, if_pos ⟨rfl, hcaplen⟩]
      rfl
    · intro hroom
      refine ⟨rfl, rfl, ?_⟩
      unfold VecModel.tryEmplaceUnchecked
      dsimp only
      rw [cellAt_modifyCell, if_pos ⟨rfl, hroom⟩]
      rfl

/-- Witness for C10: a vector of length 1 and capacity 2: a failing
initializer leaves it untouched, a successful one appends the constructed
value. -/
theorem C10_vec_try_emplace_atomic_witness :
    ((⟨[⟨some 4, 1, 0⟩, Cell.uninit], 1⟩ :
        VecModel Nat).tryEmplace (Except.error "boom")).1.len = 1 ∧
    (⟨[⟨some 4, 1, 0⟩, Cell.uninit], 1⟩ :
        VecModel Nat).tryEmplaceUnchecked (Except.error "boom") =
      (⟨[⟨some 4, 1, 0⟩, Cell.uninit], 1⟩, Except.error "boom") ∧
    ((⟨[⟨some 4, 1, 0⟩, Cell.uninit], 1⟩ :
        VecModel Nat).tryEmplace ((Except.ok 9 : Except String Nat))).1.len = 2 ∧
    (cellAt ((⟨[⟨some 4, 1, 0⟩, Cell.uninit], 1⟩ :
        VecModel Nat).tryEmplace
          ((Except.ok 9 : Except String Nat))).1.cells 1).val = some 9 := by
  have h1 := (C10_vec_try_emplace_atomic
      (⟨[⟨some 4, 1, 0⟩, Cell.uninit], 1⟩ : VecModel Nat) (by decide)
      (Except.error "boom")).1 "boom" rfl
  have h2 := (C10_vec_try_emplace_atomic
      (⟨[⟨some 4, 1, 0⟩, Cell.uninit], 1⟩ : VecModel Nat) (by decide)
      ((Except.ok 9 : Except String Nat))).2 9 rfl
  exact ⟨h1.2.1, h1.2.2.2, h2.2.1, h2.2.2.2.1⟩

end InitCrate
